import Mathlib

/-!
Verification development for the steward server-orchestration daemon.

Shallow embedding of the core concurrency/protocol engine:
* command dispatch (`steward/server.py`: `Server.handle_message`),
* capability visibility and introspection (`steward/util.py` decorators,
  `steward/extensions/base.py`: `_visible_members`),
* the event bus (`Server.publish`, `steward/events.py`: `_add_event_handler`),
* the task scheduler (`steward/tasks.py`: `Task`, `TaskList.run`),
* the async response path (`Server._handle_async`, `Server._try_respond`,
  the accept loop in `Server.run`),
* the serializer streams (`steward/streams.py`).

Python dicts are modelled as association lists, datetimes as integers,
exceptions as an explicit `Except` monad, and thread interleavings as
explicit event sequences applied to a server state.
-/

namespace Steward

/-- Opaque payload values carried in requests and responses.  The dispatch
engine never inspects the values a capability consumes or produces, so a
single opaque carrier type suffices. -/
abbrev Val := Nat

/-- A Python exception, identified by its message text. -/
structure Exc where
  msg : String
deriving Repr, DecidableEq

/-- `traceback.format_exc()`: the full traceback text of an exception.  The
model keeps the exception detail inside the rendered text, which is what the
claims about "full traceback" versus "generic description" turn on. -/
def formatExc (e : Exc) : String :=
  "Traceback (most recent call last): " ++ e.msg

/-- A member of the server's attribute tree, as populated by
`Server._apply_extensions` from decorated extension callables
(`steward/util.py`).

* `pub` models the `__public__` attribute: `none` when the attribute is
  absent (undecorated member), `some b` when a decorator set it
  (`@public` sets `True`, `@private` sets `False`, `@invisible` sets `True`).
* `invisible` models `getattr(member, '__invisible__', False)`.
* `leaf` is a bound method (`inspect.ismethod` is true), carrying the
  underlying callable on positional and keyword arguments; `node` is an
  extension class instance holding further members. -/
inductive Cap where
  | leaf (pub : Option Bool) (invisible : Bool)
      (fn : List Val → List (String × Val) → Except Exc Val) : Cap
  | node (pub : Option Bool) (invisible : Bool)
      (children : List (String × Cap)) : Cap

/-- The `__public__` attribute of a member (`none` = attribute absent). -/
def Cap.pubAttr : Cap → Option Bool
  | .leaf p _ _ => p
  | .node p _ _ => p

/-- `getattr(member, '__invisible__', False)`. -/
def Cap.isInvisible : Cap → Bool
  | .leaf _ i _ => i
  | .node _ i _ => i

/-- Calling a resolved member: a bound method runs its callable; calling a
plain extension instance raises `TypeError`. -/
def Cap.call : Cap → List Val → List (String × Val) → Except Exc Val
  | .leaf _ _ f, args, kwargs => f args kwargs
  | .node _ _ _, _, _ => .error ⟨"TypeError: instance is not callable"⟩

/-- One step of the `getattr` walk in `Server.handle_message`: looking up a
missing attribute raises `AttributeError`. -/
def Cap.getattrCap : Cap → String → Except Exc Cap
  | .leaf _ _ _, a => .error ⟨"AttributeError: " ++ a⟩
  | .node _ _ cs, a =>
    match cs.lookup a with
    | some c => .ok c
    | none => .error ⟨"AttributeError: " ++ a⟩

/-- `command.split('.')`: split a string on every dot (Python semantics:
`''.split('.') == ['']`, consecutive dots yield empty components). -/
def splitDotAux : List Char → List Char → List String
  | [], acc => [String.mk acc.reverse]
  | c :: rest, acc =>
    if c = '.' then String.mk acc.reverse :: splitDotAux rest []
    else splitDotAux rest (c :: acc)

/-- `command.split('.')` on a string. -/
def splitDot (s : String) : List String :=
  splitDotAux s.toList []

/-- The resolution loop of `Server.handle_message` (lines 168-171):
`method = self; for attr in command.split('.'): method = getattr(method, attr)`. -/
def resolvePath : Cap → List String → Except Exc Cap
  | c, [] => .ok c
  | c, a :: rest =>
    match c.getattrCap a with
    | .ok c2 => resolvePath c2 rest
    | .error e => .error e

/-- A wire request (`msg` dict of §6): the optional keys are read with
`msg.get`, the nonce with `msg['nonce']` (raising when absent). -/
structure Msg where
  cmd : Option String
  args : List Val := []
  kwargs : List (String × Val) := []
  meta : List (String × String) := []
  nonce : Option Nat

/-- A wire response dict produced by `Server.handle_message`. -/
structure Resp where
  type : String
  response : Option Val := none
  error : Option String := none
  nonce : Nat
deriving Repr, DecidableEq

/-- The formatter registry `Server._formatters`: format name and command name
to an optional formatter (`Server.get_formatter`). -/
abbrev Formatters := String → String → Option (Val → Val)

/-- The body of the `try:` block of `Server.handle_message` (lines 168-187):
split the command (calling `.split` on `None` raises `AttributeError` when
the `cmd` key is absent), walk the attribute tree, check
`getattr(method, '__public__', False)`, invoke, and apply the client's
formatter.  Returns the outcome of the block together with the list of
capabilities actually invoked (the invocation happens before its outcome is
known, so a raising capability still counts as invoked). -/
def tryBody (root : Cap) (fmts : Formatters) (msg : Msg) :
    Except Exc Val × List String :=
  match msg.cmd with
  | none => (.error ⟨"AttributeError: NoneType object has no attribute split"⟩, [])
  | some c =>
    match resolvePath root (splitDot c) with
    | .error e => (.error e, [])
    | .ok m =>
      if m.pubAttr.getD false then
        match m.call msg.args msg.kwargs with
        | .error e => (.error e, [c])
        | .ok v =>
          let fm := (msg.meta.lookup "format").getD "raw"
          let v2 := match fmts fm c with
            | some f => f v
            | none => v
          (.ok v2, [c])
      else
        (.error ⟨c ++ " is not public!"⟩, [])

/-- `Server.handle_message` (lines 151-199).

When the message has no `nonce` key the call itself raises (modelled as
`.error ()`): `msg['nonce']` raises `KeyError` inside the `try`, building
`retval` in the `except` block raises `KeyError` again, and
`delattr(cur, '_nonce')` in the `finally` block raises `AttributeError`
because `_nonce` was never set, so the `return retval` line is never reached.

When the nonce is present, every outcome of the `try` body is converted to a
single response dict keyed by the nonce, and the `finally` block's
`return retval` returns it normally.  Result: the response, the server-side
log entries (`LOG.exception` logs the message and the full traceback), and
the invoked capabilities. -/
def handleMessage (root : Cap) (fmts : Formatters) (msg : Msg) :
    Except Unit (Resp × List String × List String) :=
  match msg.nonce with
  | none => .error ()
  | some n =>
    match tryBody root fmts msg with
    | (.ok v, inv) =>
      .ok ({ type := "response", response := some v, nonce := n }, [], inv)
    | (.error e, inv) =>
      .ok ({ type := "error", error := some (formatExc e), nonce := n },
        ["Error running " ++ msg.cmd.getD "None", formatExc e], inv)

/-- Direct server-side invocation of a capability, as another extension would
do (`self.persist(...)`): plain attribute access followed by a call, with no
`__public__` check (`Server.handle_message` is the only place that checks). -/
def directCall (root : Cap) (path : List String) (args : List Val)
    (kwargs : List (String × Val)) : Except Exc Val :=
  match resolvePath root path with
  | .ok m => m.call args kwargs
  | .error e => .error e

/-- `name.startswith('_')`. -/
def startsUnderscore (s : String) : Bool :=
  match s.toList with
  | [] => false
  | c :: _ => c == '_'

/-- `_visible_members` (`steward/extensions/base.py` lines 62-90), restricted
to the member names it yields (the `doc`/`complete` fields of each yielded
element are payload irrelevant to membership).  Control flow follows the
source: skip underscore names, skip members without a `__public__` attribute,
skip invisible members, recurse into non-method members prefixing their name,
and yield the member itself only when `__public__` is truthy. -/
def visList : List (String × Cap) → List String
  | [] => []
  | (name, Cap.leaf p i _) :: rest =>
    (if startsUnderscore name then []
     else
       match p with
       | none => []
       | some pubVal => if i then [] else if pubVal then [name] else [])
    ++ visList rest
  | (name, Cap.node p i cs) :: rest =>
    (if startsUnderscore name then []
     else
       match p with
       | none => []
       | some pubVal =>
         if i then []
         else
           (visList cs).map (fun e => name ++ "." ++ e) ++
             (if pubVal then [name] else []))
    ++ visList rest

/-- The `commands` introspection capability (`steward/extensions/base.py`
lines 57-60): list the visible members of the server root. -/
def visibleMembers : Cap → List String
  | .leaf _ _ _ => []
  | .node _ _ cs => visList cs

/-! ## Event bus (`Server.publish`, `steward/events.py`) -/

/-- Outcome of calling one event handler: it returned `True` (the veto
signal), returned anything else, or raised. -/
inductive HOut where
  | retTrue
  | retOther
  | raises
deriving Repr, DecidableEq

/-- An event handler callback.  `run payload groups` yields the outcome and
the payload as possibly mutated in place by the callback (a raising callback
may also have mutated the payload before raising).  The source passes the
regex capture groups as extra positional arguments when the pattern has
groups; the model always hands the handler its (possibly empty) group
list. -/
structure Handler where
  name : String
  run : Val → List String → HOut × Val

/-- A compiled pattern: matching an event name yields the capture groups. -/
abbrev Pattern := String → Option (List String)

/-- The handler loop of `Server.publish` (lines 214-227): iterate handlers in
list order; run each whose pattern matches; a `True` return stops the loop
(and, at the caller, suppresses the fan-out send); a raising handler is
logged and the loop continues.  Returns the names of the handlers invoked, in
order, and `some finalPayload` when the loop ran to completion or `none` when
a handler vetoed. -/
def runHandlers : List (Pattern × Handler) → String → Val →
    List String × Option Val
  | [], _, p => ([], some p)
  | (pat, h) :: rest, name, p =>
    match pat name with
    | none => runHandlers rest name p
    | some groups =>
      match h.run p groups with
      | (.retTrue, _) => ([h.name], none)
      | (.retOther, p2) =>
        let r := runHandlers rest name p2
        (h.name :: r.1, r.2)
      | (.raises, p2) =>
        let r := runHandlers rest name p2
        (h.name :: r.1, r.2)

/-- `Server.publish` (lines 201-228): run the handler chain; if no handler
vetoed, call `self._pubstream.send(name, data)` with the original event name
and the final payload.  Returns the invoked handler names and the send call
made on the fan-out transport (`none` when the send was suppressed). -/
def publish (hs : List (Pattern × Handler)) (name : String) (p : Val) :
    List String × Option (String × Val) :=
  let r := runHandlers hs name p
  (r.1, r.2.map (fun p2 => (name, p2)))

/-- A registered event handler record as stored by `_add_event_handler`
(`steward/events.py` lines 85-93): pattern text, callback (identified by a
tag), priority, permission. -/
structure EvHandler where
  pattern : String
  callback : String
  priority : Int
  permission : String := "default"
deriving Repr, DecidableEq

/-- `_add_event_handler`'s insertion (`steward/events.py` lines 85-93): scan
until the first existing handler whose priority is strictly greater than the
new one's, and insert there — so the new handler lands after every existing
handler of lower or equal priority. -/
def addEventHandler : List EvHandler → EvHandler → List EvHandler
  | [], h => [h]
  | x :: rest, h =>
    if h.priority < x.priority then h :: x :: rest
    else x :: addEventHandler rest h

/-- Registering a sequence of handlers in order, starting from the given
list (the registry starts empty: `config.registry.event_handlers = []`). -/
def registerAll (hs : List EvHandler) : List EvHandler :=
  hs.foldl addEventHandler []

/-- Stable insertion used to model the one-shot
`self.event_handlers.sort(key=lambda x: x[1].__priority__)` of
`Server._apply_extensions` (lines 436-437): Python's `list.sort` is stable,
so it is an insertion placing each element before the first strictly greater
key while keeping equal keys in their original relative order. -/
def insertStable (h : EvHandler) : List EvHandler → List EvHandler
  | [] => [h]
  | y :: rest =>
    if y.priority < h.priority then y :: insertStable h rest else h :: y :: rest

/-- A stable sort by priority (the semantics of Python's stable `sort` with
`key=priority`). -/
def sortHandlers (l : List EvHandler) : List EvHandler :=
  l.foldr insertStable []

/-! ## Async response path (`Server._handle_async`, `Server._try_respond`,
the accept loop of `Server.run`) -/

/-- The observable server state threaded through the async response path:

* `clientCmds` models `Server._client_cmds`, the mapping from client uid to
  the worker thread currently owning that client's request;
* `queue` models `Server._queue`, the result queue of `(uid, response)`
  pairs, where the uid slot is `None` for suppressed (stale) results;
* `sent` records the `self._stream.send(uid, response)` calls made by
  `Server._try_respond`, in order. -/
structure SrvState where
  clientCmds : List (String × Nat) := []
  queue : List (Option String × Resp) := []
  sent : List (String × Resp) := []
deriving Repr, DecidableEq

/-- Atomic events of the async response path, in the order the source
performs them:

* `record uid tid` — line 242 of `_handle_async`:
  `self._client_cmds[uid] = threading.current_thread()`;
* `finish uid tid resp` — lines 249-251 of `_handle_async`: the completing
  worker compares `self._client_cmds[uid]` against its own thread, nulls the
  uid on mismatch, and enqueues `(uid, retval)`;
* `drain` — `Server._try_respond` (lines 295-308): pop every queued entry and
  send those whose uid is not `None`. -/
inductive AsyncEvent where
  | record (uid : String) (tid : Nat)
  | finish (uid : String) (tid : Nat) (resp : Resp)
  | drain
deriving Repr, DecidableEq

/-- Apply one async event to the server state.  Dict assignment to
`_client_cmds` is modelled by consing onto the association list: `lookup`
returns the newest binding, shadowing older ones. -/
def applyEvent (s : SrvState) : AsyncEvent → SrvState
  | .record uid tid =>
    { s with clientCmds := (uid, tid) :: s.clientCmds }
  | .finish uid tid resp =>
    let deliverTo := if s.clientCmds.lookup uid = some tid then some uid else none
    { s with queue := s.queue ++ [(deliverTo, resp)] }
  | .drain =>
    { s with
      queue := []
      sent := s.sent ++ s.queue.filterMap
        (fun e => e.1.map (fun u => (u, e.2))) }

/-- Run a sequence of async events from a state. -/
def runEvents (s : SrvState) : List AsyncEvent → SrvState
  | [] => s
  | e :: rest => runEvents (applyEvent s e) rest

/-- The result of one wait on the command socket in the accept loop:
`self._stream.recv(timeout=0.1)` either returns a frame or raises
`zmq.ZMQError` on timeout. -/
inductive RecvResult where
  | frame (uid : String) (msg : Msg)
  | timeout

/-- Observable effects of one iteration of the accept loop body. -/
structure LoopEffects where
  dispatched : Option (String × Msg)
  drained : Bool

/-- One iteration of the `while self.running` accept loop of `Server.run`
(lines 331-341), as written: on a received frame the handler is dispatched to
the worker pool and the iteration ends; `self._try_respond()` sits inside the
`except zmq.ZMQError` block (after `pass`), so the queue is drained only in
iterations where the receive timed out. -/
def loopIteration : RecvResult → LoopEffects
  | .frame uid msg => { dispatched := some (uid, msg), drained := false }
  | .timeout => { dispatched := none, drained := true }

/-! ## Task scheduler (`steward/tasks.py`)

Datetimes are modelled as integers.  A schedule function is a state machine
`sched : Int → σ → Option Int × σ`: the callable branch of `Task.__init__`
(line 78, `lambda: arg(datetime.now())`) hands the current time to a user
callable that may carry its own state (the docstring's
`TerminatingTaskSchedule` example mutates itself), while the croniter branch
(line 101, `lambda: cron.get_next(datetime)`) ignores the current time and
advances the iterator state by one interval per call.  Both are instances of
the state-machine shape. -/

/-- A `Task` (`steward/tasks.py` lines 70-119): schedule state machine plus
the memoized `_next_exec` cache (`none` models Python `None`, covering both
"not yet computed" and "schedule returned None", exactly as the single
`_next_exec` attribute does). -/
structure STask (σ : Type) where
  name : String
  sched : Int → σ → Option Int × σ
  sst : σ
  cache : Option Int

/-- The `Task.next_exec` property (lines 103-115): recompute and re-memoize
exactly when the cached value is `None` — so a schedule that returned `None`
is called again on the next read of the property. -/
def STask.nextExec (t : STask σ) (now : Int) : Option Int × STask σ :=
  match t.cache with
  | some v => (some v, t)
  | none =>
    let r := t.sched now t.sst
    (r.1, { t with sst := r.2, cache := r.1 })

/-- `Task.reset_next_exec` (lines 117-119): unconditionally recompute. -/
def STask.resetNextExec (t : STask σ) (now : Int) : STask σ :=
  let r := t.sched now t.sst
  { t with sst := r.2, cache := r.1 }

/-- Key order used by `sort(key=lambda x: x.next_exec)` under Python 2:
`None` compares below every datetime. -/
def keyLT : Option Int → Option Int → Bool
  | none, none => false
  | none, some _ => true
  | some _, none => false
  | some a, some b => a < b

/-- Stable insertion of a keyed task: an element is placed before the first
existing element that is not strictly smaller, which is how a stable sort
orders elements whose keys tie. -/
def insertByKey (p : Option Int × STask σ) :
    List (Option Int × STask σ) → List (Option Int × STask σ)
  | [] => [p]
  | q :: rest =>
    if keyLT q.1 p.1 then q :: insertByKey p rest else p :: q :: rest

/-- `self.tasks.sort(key=lambda x: x.next_exec)`: evaluating the key runs the
memoizing `next_exec` property on every task, then the list is stably sorted
by the resulting keys. -/
def sortTasks (now : Int) (ts : List (STask σ)) : List (STask σ) :=
  ((ts.map (fun t => t.nextExec now)).foldr insertByKey []).map (fun p => p.2)

/-- `TaskList.add` (lines 151-162): append, then sort by `next_exec` (which
computes and memoizes the new task's first scheduled time). -/
def addTask (now : Int) (ts : List (STask σ)) (t : STask σ) : List (STask σ) :=
  sortTasks now (ts ++ [t])

/-- One iteration of the governing loop `TaskList.run` (lines 175-194) at
time `now`.  Result `none` models the loop crashing (`None - datetime.now()`
raises `TypeError` when the head task's `next_exec` is `None`); otherwise the
new task list together with the name of the task dispatched for execution
this iteration (`none` when the iteration only slept).

An empty list sleeps.  Otherwise `delta = tasks[0].next_exec - now`; a
positive delta sleeps.  A due head task is reset (`reset_next_exec`), popped
exactly when the freshly read `next_exec` property is `None` (note the
property recomputes when the reset stored `None`), the list is re-sorted,
and a thread running the task is started — also on the iteration in which
the schedule returned `None`. -/
def stepTL (now : Int) : List (STask σ) → Option (List (STask σ) × Option String)
  | [] => some ([], none)
  | t0 :: rest =>
    let r := t0.nextExec now
    match r.1 with
    | none => none
    | some ne =>
      if 0 < ne - now then some (r.2 :: rest, none)
      else
        let t0b := r.2.resetNextExec now
        let r2 := t0b.nextExec now
        let remaining := if r2.1.isNone then rest else r2.2 :: rest
        some (sortTasks now remaining, some t0b.name)

/-- Run the governing loop for the given sequence of iteration times,
collecting the names of the task executions dispatched. -/
def runTL : List Int → List (STask σ) → Option (List (STask σ) × List String)
  | [], ts => some (ts, [])
  | now :: more, ts =>
    match stepTL now ts with
    | none => none
    | some (ts2, fired) =>
      match runTL more ts2 with
      | none => none
      | some (ts3, fs) => some (ts3, fired.toList ++ fs)

/-! ## Serializer streams (`steward/streams.py` lines 275-297)

`PickleStream`, `JsonStream` and `MsgPackStream` all have the shape
`serialize(obj) = zlib.compress(dumps(obj))` and
`deserialize(b) = loads(zlib.decompress(b))`, differing only in which
library supplies `dumps`/`loads`.  The library codec and compressor are
parameters of the model; their inverse laws are the library contracts the
spec states for the supported value types. -/

/-- `serialize` of the three stream classes: compression applied after
serialization. -/
def streamSerialize (dumps : α → List Nat) (compress : List Nat → List Nat)
    (v : α) : List Nat :=
  compress (dumps v)

/-- `deserialize` of the three stream classes: compression reversed before
deserialization. -/
def streamDeserialize (loads : List Nat → α)
    (decompress : List Nat → List Nat) (b : List Nat) : α :=
  loads (decompress b)

/-- A concrete supported-value type for instantiating the codec contract:
Python `None`, booleans and (signed, unbounded) integers. -/
inductive PyPrim where
  | pyNone
  | pyBool (b : Bool)
  | pyInt (n : Int)
deriving Repr, DecidableEq

/-- A concrete executable codec on `PyPrim` (tag byte plus sign/magnitude). -/
def pyDumps : PyPrim → List Nat
  | .pyNone => [0]
  | .pyBool b => [1, cond b 1 0]
  | .pyInt (Int.ofNat m) => [2, 0, m]
  | .pyInt (Int.negSucc m) => [2, 1, m]

/-- Decoder for `pyDumps` (defaults to `None` on malformed input). -/
def pyLoads : List Nat → PyPrim
  | [1, b] => .pyBool (b == 1)
  | [2, 0, m] => .pyInt (Int.ofNat m)
  | [2, 1, m] => .pyInt (Int.negSucc m)
  | _ => .pyNone

/-- A concrete lossless compressor pair standing in for zlib's contract:
length-prefix framing. -/
def lenCompress (bs : List Nat) : List Nat := bs.length :: bs

/-- Inverse of `lenCompress`. -/
def lenDecompress : List Nat → List Nat
  | [] => []
  | _ :: bs => bs

/-- The response dict of a `handle_message` outcome, when the call returned
normally. -/
def respOf (x : Except Unit (Resp × List String × List String)) : Option Resp :=
  x.toOption.map (fun r => r.1)

end Steward

open Steward

/-- C10: for every inbound message dict that contains a `nonce` key,
`handle_message` returns normally with exactly one response dict whose nonce
equals the request's nonce and whose type is `response` or `error`,
regardless of the `cmd` key, resolution, or the capability raising; and for
a message lacking the `nonce` key, `handle_message` itself raises instead of
returning an error response. -/
theorem c10_nonce_totality (root : Cap) (fmts : Formatters) (msg : Msg) :
    (∀ n, msg.nonce = some n →
      (respOf (handleMessage root fmts msg)).map Resp.nonce = some n ∧
      ((respOf (handleMessage root fmts msg)).map Resp.type = some "response" ∨
       (respOf (handleMessage root fmts msg)).map Resp.type = some "error")) ∧
    (msg.nonce = none → handleMessage root fmts msg = .error ()) := by
  constructor
  · intro n hn
    rcases htb : tryBody root fmts msg with ⟨res, inv⟩
    cases res with
    | ok v =>
      constructor
      · simp [handleMessage, hn, htb, respOf, Except.toOption]
      · left
        simp [handleMessage, hn, htb, respOf, Except.toOption]
    | error e =>
      constructor
      · simp [handleMessage, hn, htb, respOf, Except.toOption]
      · right
        simp [handleMessage, hn, htb, respOf, Except.toOption]
  · intro hn
    simp [handleMessage, hn]

/-- Witness for C10 at a concrete input: a message with nonce 5 and an
unresolvable command gets exactly one terminal dict with the same nonce. -/
theorem c10_witness :
    (respOf (handleMessage (Cap.node none false []) (fun _ _ => none)
        ⟨some "zap", [], [], [], some 5⟩)).map Resp.nonce = some 5 ∧
    ((respOf (handleMessage (Cap.node none false []) (fun _ _ => none)
        ⟨some "zap", [], [], [], some 5⟩)).map Resp.type = some "response" ∨
     (respOf (handleMessage (Cap.node none false []) (fun _ _ => none)
        ⟨some "zap", [], [], [], some 5⟩)).map Resp.type = some "error") :=
  (c10_nonce_totality (Cap.node none false []) (fun _ _ => none)
    ⟨some "zap", [], [], [], some 5⟩).1 5 rfl

/-- C2 counterexample: at a concrete request whose capability raises, the
error response's `error` field carries the full traceback text — the very
string that is logged server-side — not a safe generic description, so the
claim that the traceback is never included in the response payload is false
on the code (`server.py` line 192: `'error': traceback.format_exc()`). -/
theorem c2_counterexample :
    handleMessage
      (Cap.node none false [("boom", Cap.leaf (some true) false
        (fun _ _ => .error ⟨"ZeroDivisionError: integer division or modulo by zero"⟩))])
      (fun _ _ => none)
      ⟨some "boom", [], [], [], some 7⟩ =
    .ok ({ type := "error",
           error := some (formatExc ⟨"ZeroDivisionError: integer division or modulo by zero"⟩),
           nonce := 7 },
         ["Error running boom",
          formatExc ⟨"ZeroDivisionError: integer division or modulo by zero"⟩],
         ["boom"]) := by
  rfl

/-- C2 amended: for every request (with a nonce) whose capability raises, the
client receives a terminal error response keyed by the request's nonce whose
`error` field contains the full traceback text; the same traceback is logged
server-side — it is included in, not withheld from, the response payload. -/
theorem c2_error_response_carries_traceback (root : Cap) (fmts : Formatters)
    (msg : Msg) (n : Nat) (c : String) (m : Cap) (e : Exc)
    (hn : msg.nonce = some n) (hc : msg.cmd = some c)
    (hres : resolvePath root (splitDot c) = .ok m)
    (hpub : m.pubAttr.getD false = true)
    (hcall : m.call msg.args msg.kwargs = .error e) :
    handleMessage root fmts msg =
      .ok ({ type := "error", error := some (formatExc e), nonce := n },
           ["Error running " ++ c, formatExc e], [c]) := by
  simp [handleMessage, tryBody, hn, hc, hres, hpub, hcall]

/-- Witness for C2's amended theorem at the concrete raising capability. -/
theorem c2_witness :
    handleMessage
      (Cap.node none false [("crash", Cap.leaf (some true) false
        (fun _ _ => .error ⟨"KeyError: missing"⟩))])
      (fun _ _ => none)
      ⟨some "crash", [], [], [], some 3⟩ =
    .ok ({ type := "error", error := some (formatExc ⟨"KeyError: missing"⟩),
           nonce := 3 },
         ["Error running crash", formatExc ⟨"KeyError: missing"⟩], ["crash"]) :=
  c2_error_response_carries_traceback _ _ _ 3 "crash" _ ⟨"KeyError: missing"⟩
    rfl rfl rfl rfl rfl

/-- C8: visibility enforcement.
1. A capability whose `__public__` attribute is false or absent is never
   invoked by remote dispatch: `handle_message` returns an error response and
   the invoked-capability list is empty.
2. The same capability remains directly callable by server-side code (plain
   attribute access plus call, which performs no `__public__` check).
3. A capability tagged invisible (`__public__ = True`, `__invisible__ =
   True`) is dispatched exactly like a public one: the response does not
   depend on the invisible flag.
4. An invisible member is excluded from the `commands` introspection
   listing, while a public non-underscore member is listed. -/
theorem c8_visibility :
    (∀ (root : Cap) (fmts : Formatters) (msg : Msg) (n : Nat) (c : String) (m : Cap),
      msg.nonce = some n → msg.cmd = some c →
      resolvePath root (splitDot c) = .ok m → m.pubAttr.getD false = false →
      handleMessage root fmts msg =
        .ok ({ type := "error",
               error := some (formatExc ⟨c ++ " is not public!"⟩), nonce := n },
             ["Error running " ++ c, formatExc ⟨c ++ " is not public!"⟩], [])) ∧
    (∀ (root : Cap) (path : List String) (args : List Val)
       (kwargs : List (String × Val)) (p : Option Bool) (i : Bool)
       (f : List Val → List (String × Val) → Except Exc Val),
      resolvePath root path = .ok (Cap.leaf p i f) →
      directCall root path args kwargs = f args kwargs) ∧
    (∀ (r1 r2 : Cap) (fmts : Formatters) (msg : Msg) (c : String)
       (f : List Val → List (String × Val) → Except Exc Val),
      msg.cmd = some c →
      resolvePath r1 (splitDot c) = .ok (Cap.leaf (some true) true f) →
      resolvePath r2 (splitDot c) = .ok (Cap.leaf (some true) false f) →
      handleMessage r1 fmts msg = handleMessage r2 fmts msg) ∧
    (∀ (name : String) (m : Cap) (rest : List (String × Cap)),
      m.isInvisible = true → visList ((name, m) :: rest) = visList rest) ∧
    (∀ (name : String) (f : List Val → List (String × Val) → Except Exc Val)
       (rest : List (String × Cap)),
      startsUnderscore name = false →
      visList ((name, Cap.leaf (some true) false f) :: rest) =
        name :: visList rest) := by
  refine ⟨?_, ?_, ?_, ?_, ?_⟩
  · intro root fmts msg n c m hn hc hres hpriv
    simp [handleMessage, tryBody, hn, hc, hres, hpriv]
  · intro root path args kwargs p i f hres
    simp [directCall, hres, Cap.call]
  · intro r1 r2 fmts msg c f hc hres1 hres2
    cases hn : msg.nonce with
    | none => simp [handleMessage, hn]
    | some n =>
      simp [handleMessage, tryBody, hn, hc, hres1, hres2, Cap.call, Cap.pubAttr]
  · intro name m rest hinv
    cases m with
    | leaf p i f =>
      simp only [Cap.isInvisible] at hinv
      subst hinv
      cases p <;> simp [visList]
    | node p i cs =>
      simp only [Cap.isInvisible] at hinv
      subst hinv
      cases p <;> simp [visList]
  · intro name f rest hs
    simp [visList, hs]

/-- Witness for C8 at concrete inputs: a private capability is rejected by
dispatch with an error response and zero invocations, yet a direct
server-side call reaches its callable; an invisible leaf is absent from the
listing while a public sibling is listed. -/
theorem c8_witness :
    handleMessage
      (Cap.node none false [("persist", Cap.leaf (some false) false
        (fun _ _ => .ok 42))])
      (fun _ _ => none)
      ⟨some "persist", [], [], [], some 9⟩ =
      .ok ({ type := "error",
             error := some (formatExc ⟨"persist is not public!"⟩), nonce := 9 },
           ["Error running persist", formatExc ⟨"persist is not public!"⟩], []) ∧
    directCall
      (Cap.node none false [("persist", Cap.leaf (some false) false
        (fun _ _ => .ok 42))])
      ["persist"] [] [] = .ok 42 ∧
    visList [("hidden", Cap.leaf (some true) true (fun _ _ => .ok 1)),
             ("ping", Cap.leaf (some true) false (fun _ _ => .ok 2))] = ["ping"] := by
  refine ⟨?_, ?_, ?_⟩
  · exact c8_visibility.1 _ _ _ 9 "persist"
      (Cap.leaf (some false) false (fun _ _ => .ok 42)) rfl rfl rfl rfl
  · exact c8_visibility.2.1 _ ["persist"] [] [] (some false) false
      (fun _ _ => .ok 42) rfl
  · rw [c8_visibility.2.2.2.1 "hidden"
        (Cap.leaf (some true) true (fun _ _ => .ok 1)) _ rfl,
      c8_visibility.2.2.2.2 "ping" (fun _ _ => .ok 2) _ rfl]
    simp [visList]

/-- Running a handler chain split in two: once the first part completes
without a veto, the second part runs on the payload the first produced; a
veto in the first part stops everything.  (Structural lemma about
`Server.publish`'s handler loop.) -/
theorem runHandlers_append_of_noveto (a b : List (Pattern × Handler))
    (name : String) (p p1 : Val) (inv : List String)
    (h : runHandlers a name p = (inv, some p1)) :
    runHandlers (a ++ b) name p =
      (inv ++ (runHandlers b name p1).1, (runHandlers b name p1).2) := by
  induction a generalizing p inv with
  | nil =>
    simp only [runHandlers, Prod.mk.injEq, Option.some.injEq] at h
    obtain ⟨h1, h2⟩ := h
    subst h1 h2
    simp
  | cons hd tl ih =>
    obtain ⟨pat, hh⟩ := hd
    simp only [List.cons_append, runHandlers] at h ⊢
    cases hpat : pat name with
    | none =>
      rw [hpat] at h
      exact ih p inv h
    | some groups =>
      rw [hpat] at h
      dsimp only at h ⊢
      cases hrun : hh.run p groups with
      | mk o p2 =>
        rw [hrun] at h
        cases o with
        | retTrue =>
          dsimp only at h
          simp at h
        | retOther =>
          dsimp only at h ⊢
          cases hr : runHandlers tl name p2 with
          | mk inv2 r2 =>
            rw [hr] at h
            simp only [Prod.mk.injEq] at h
            obtain ⟨h1, h2⟩ := h
            subst h1
            cases r2 with
            | none => simp at h2
            | some pv =>
              obtain rfl : pv = p1 := by simpa using h2
              simp only [List.append_eq]
              rw [ih p2 inv2 (by rw [hr])]
              simp
        | raises =>
          dsimp only at h ⊢
          cases hr : runHandlers tl name p2 with
          | mk inv2 r2 =>
            rw [hr] at h
            simp only [Prod.mk.injEq] at h
            obtain ⟨h1, h2⟩ := h
            subst h1
            cases r2 with
            | none => simp at h2
            | some pv =>
              obtain rfl : pv = p1 := by simpa using h2
              simp only [List.append_eq]
              rw [ih p2 inv2 (by rw [hr])]
              simp

theorem c4_veto_shortcircuit :
    (∀ (pre post : List (Pattern × Handler)) (pat : Pattern) (h : Handler)
       (name : String) (p p2 q : Val) (gs : List String) (inv : List String),
      runHandlers pre name p = (inv, some p2) →
      pat name = some gs →
      h.run p2 gs = (.retTrue, q) →
      publish (pre ++ (pat, h) :: post) name p = (inv ++ [h.name], none)) ∧
    (∀ (hs : List (Pattern × Handler)) (name : String) (p p2 : Val)
       (inv : List String),
      runHandlers hs name p = (inv, some p2) →
      publish hs name p = (inv, some (name, p2))) := by
  constructor
  · intro pre post pat h name p p2 q gs inv hpre hpat hrun
    unfold publish
    rw [runHandlers_append_of_noveto pre ((pat, h) :: post) name p p2 inv hpre]
    simp only [runHandlers, hpat, hrun]
    rfl
  · intro hs name p p2 inv h
    unfold publish
    rw [h]
    rfl

theorem c4_witness :
    publish [((fun s => if s = "stopped" then some [] else none),
              ⟨"h10", fun p _ => (.retTrue, p)⟩),
             ((fun s => if s = "stopped" then some [] else none),
              ⟨"h20", fun p _ => (.retOther, p)⟩)] "stopped" 0 =
      (["h10"], none) :=
  c4_veto_shortcircuit.1 []
    [((fun s => if s = "stopped" then some [] else none),
      ⟨"h20", fun p _ => (.retOther, p)⟩)]
    (fun s => if s = "stopped" then some [] else none)
    ⟨"h10", fun p _ => (.retTrue, p)⟩
    "stopped" 0 0 0 [] [] rfl rfl rfl


theorem addEventHandler_mem {hs : List EvHandler} {h y : EvHandler}
    (hy : y ∈ addEventHandler hs h) : y ∈ hs ∨ y = h := by
  induction hs with
  | nil =>
    simp [addEventHandler] at hy
    right; exact hy
  | cons x rest ih =>
    simp only [addEventHandler] at hy
    by_cases hlt : h.priority < x.priority
    · rw [if_pos hlt] at hy
      rcases List.mem_cons.mp hy with rfl | hy2
      · right; rfl
      · left; exact hy2
    · rw [if_neg hlt] at hy
      rcases List.mem_cons.mp hy with rfl | hy2
      · left; exact List.mem_cons_self _ _
      · rcases ih hy2 with h3 | h4
        · left; exact List.mem_cons_of_mem _ h3
        · right; exact h4

theorem c5_priority_ordering :
    (∀ (hs : List EvHandler) (h : EvHandler),
      List.Sorted (fun a b : EvHandler => a.priority ≤ b.priority) hs →
      List.Sorted (fun a b : EvHandler => a.priority ≤ b.priority)
        (addEventHandler hs h)) ∧
    (∀ (hs : List EvHandler) (h : EvHandler),
      addEventHandler hs h =
        hs.takeWhile (fun x => ! decide (h.priority < x.priority)) ++
          h :: hs.dropWhile (fun x => ! decide (h.priority < x.priority))) ∧
    registerAll [⟨"ev", "cb50", 50, "default"⟩, ⟨"ev", "cb10", 10, "default"⟩,
        ⟨"ev", "cb100", 100, "default"⟩] =
      [⟨"ev", "cb10", 10, "default"⟩, ⟨"ev", "cb50", 50, "default"⟩,
        ⟨"ev", "cb100", 100, "default"⟩] ∧
    (publish ((registerAll [⟨"ev", "cb50", 50, "default"⟩,
        ⟨"ev", "cb10", 10, "default"⟩, ⟨"ev", "cb100", 100, "default"⟩]).map
        (fun e => ((fun _ => some ([] : List String)),
          (⟨e.callback, fun p _ => (.retOther, p)⟩ : Handler))))
      "x" 0).1 = ["cb10", "cb50", "cb100"] ∧
    registerAll [⟨"a", "first", 5, "default"⟩, ⟨"b", "second", 5, "default"⟩] =
      [⟨"a", "first", 5, "default"⟩, ⟨"b", "second", 5, "default"⟩] ∧
    sortHandlers [⟨"ev", "cb50", 50, "default"⟩, ⟨"ev", "cb10", 10, "default"⟩,
        ⟨"ev", "cb100", 100, "default"⟩] =
      [⟨"ev", "cb10", 10, "default"⟩, ⟨"ev", "cb50", 50, "default"⟩,
        ⟨"ev", "cb100", 100, "default"⟩] ∧
    sortHandlers [⟨"a", "first", 5, "default"⟩, ⟨"b", "second", 5, "default"⟩] =
      [⟨"a", "first", 5, "default"⟩, ⟨"b", "second", 5, "default"⟩] := by
  refine ⟨?_, ?_, by decide, by rfl, by decide, by decide, by decide⟩
  · intro hs h hsort
    induction hs with
    | nil => simp [addEventHandler]
    | cons x rest ih =>
      rw [List.sorted_cons] at hsort
      obtain ⟨hx, hrest⟩ := hsort
      simp only [addEventHandler]
      by_cases hlt : h.priority < x.priority
      · rw [if_pos hlt, List.sorted_cons]
        constructor
        · intro b hb
          rcases List.mem_cons.mp hb with rfl | hb2
          · exact le_of_lt hlt
          · exact le_trans (le_of_lt hlt) (hx b hb2)
        · rw [List.sorted_cons]; exact ⟨hx, hrest⟩
      · rw [if_neg hlt, List.sorted_cons]
        refine ⟨?_, ih hrest⟩
        intro b hb
        rcases addEventHandler_mem hb with hb2 | rfl
        · exact hx b hb2
        · exact le_of_not_lt hlt
  · intro hs h
    induction hs with
    | nil => simp [addEventHandler]
    | cons x rest ih =>
      simp only [addEventHandler, List.takeWhile_cons, List.dropWhile_cons]
      by_cases hlt : h.priority < x.priority
      · simp [hlt]
      · simp [hlt, ih]

theorem c5_witness :
    List.Sorted (fun a b : EvHandler => a.priority ≤ b.priority)
      (addEventHandler [⟨"ev", "cb10", 10, "default"⟩,
        ⟨"ev", "cb50", 50, "default"⟩] ⟨"ev", "cb20", 20, "default"⟩) :=
  c5_priority_ordering.1
    [⟨"ev", "cb10", 10, "default"⟩, ⟨"ev", "cb50", 50, "default"⟩]
    ⟨"ev", "cb20", 20, "default"⟩ (by decide)


/-- The claim's terminating schedule: a time 10 units ahead of the current
time on its first two calls, `None` from the third call on (the state is the
number of calls made, as in the `TerminatingTaskSchedule` example of the
`Task` docstring). -/
def termSched : Int → Nat → Option Int × Nat :=
  fun now k => if k < 2 then (some (now + 10), k + 1) else (none, k + 1)

/-- The task built on `termSched`, fresh (nothing memoized). -/
def termTask : STask Nat :=
  { name := "t", sched := termSched, sst := 0, cache := none }

/-- C6: a task whose schedule function returns a time 10 units in the future
on its first two calls and `None` afterwards executes exactly twice, and
after the due-check at which the schedule returned `None` it is gone from
the task list; the loop on the empty list never fires anything again.
Trace: added at time 0 (memoizing `next_exec = 10`), checked at times 0
(sleep), 10 (fire, reschedule to 20), 20 (schedule returns `None`: the task
is popped and fires for the second and last time), 30 (empty list sleeps). -/
theorem c6_task_lifecycle :
    runTL [0, 10, 20, 30] (addTask 0 [] termTask) = some ([], ["t", "t"]) ∧
    (∀ now : Int, stepTL now ([] : List (STask Nat)) = some ([], none)) :=
  ⟨rfl, fun _ => rfl⟩

/-- A cron-style schedule on a 60-unit interval: `croniter.get_next` ignores
the current time and advances the iterator by one interval per call, so the
state is the next due time of the underlying sequence 60, 120, 180, ... -/
def cronSched : Int → Int → Option Int × Int :=
  fun _ s => (some s, s + 60)

/-- A task on the 60-unit cron schedule: its memoized `next_exec` is 60 and
the iterator state has advanced past it, so the next recomputations yield
120, 180, 240, ... regardless of the clock. -/
def cronTask : STask Int :=
  { name := "c", sched := cronSched, sst := 120, cache := some 60 }

/-- C7 counterexample: a task on a one-minute (60-unit) cron schedule whose
cached `next_exec` (60) is two minutes in the past when the loop first
checks it at time 180 fires three times — once per missed interval over
back-to-back due-checks — not exactly once; and after its first firing the
recomputed `next_exec` is 120, one missed interval behind, not a time
derived from the current time 180. -/
theorem c7_counterexample :
    (runTL [180, 180, 180, 180] [cronTask]).map (fun r => r.2) =
      some ["c", "c", "c"] ∧
    (stepTL 180 [cronTask]).map (fun r => (r.1.map STask.cache, r.2)) =
      some ([some 120], some "c") :=
  ⟨rfl, rfl⟩

/-- A callable schedule of the form `lambda dt: dt + delta`: the callable
branch of `Task.__init__` passes `datetime.now()` to the user function, so
the recomputed time is relative to the current time. -/
def relSched (delta : Int) : Int → Unit → Option Int × Unit :=
  fun now _ => (some (now + delta), ())

/-- C7 amended: each due-check dispatches at most the single due head task,
and for a task whose schedule function computes the next time from the
current time passed to it (the callable-schedule branch, here
`dt ↦ dt + delta` with `delta > 0`), a late task — however far its cached
`next_exec` lies in the past — fires exactly once on the next due-check,
its recomputed `next_exec` is `now + delta` (in the future), and it does
not fire again before that time.  A schedule that ignores the current time
and advances one interval per recomputation (the croniter branch) is
instead fired once per missed interval across successive due-checks. -/
theorem c7_late_single_fire (delta t0 now now2 : Int) (nm : String)
    (hdelta : 0 < delta) (hlate : t0 ≤ now) (hnext : now2 < now + delta) :
    stepTL now [⟨nm, relSched delta, (), some t0⟩] =
      some ([⟨nm, relSched delta, (), some (now + delta)⟩], some nm) ∧
    stepTL now2 [⟨nm, relSched delta, (), some (now + delta)⟩] =
      some ([⟨nm, relSched delta, (), some (now + delta)⟩], none) := by
  constructor
  · have hc : ¬ (0 < t0 - now) := by omega
    simp [stepTL, STask.nextExec, STask.resetNextExec, relSched, hc,
      sortTasks, insertByKey]
  · have hc : 0 < now + delta - now2 := by omega
    simp [stepTL, STask.nextExec, hc]

/-- Witness for C7's amended theorem: a task three minutes late on a
one-minute relative schedule fires exactly once at time 180 and is then
scheduled for 240, so the immediately following check at time 181 sleeps. -/
theorem c7_witness :
    stepTL 180 [⟨"r", relSched 60, (), some 0⟩] =
      some ([⟨"r", relSched 60, (), some 240⟩], some "r") ∧
    stepTL 181 [⟨"r", relSched 60, (), some 240⟩] =
      some ([⟨"r", relSched 60, (), some 240⟩], none) :=
  c7_late_single_fire 60 0 180 181 "r" (by decide) (by decide) (by decide)

/-- Draining twice is the same as draining once (the queue is empty after a
drain). -/
theorem applyEvent_drain_idem (s : SrvState) :
    applyEvent (applyEvent s .drain) .drain = applyEvent s .drain := by
  cases s
  simp [applyEvent]

/-- Running event sequences one after the other. -/
theorem runEvents_append (s : SrvState) (a b : List AsyncEvent) :
    runEvents s (a ++ b) = runEvents (runEvents s a) b := by
  induction a generalizing s with
  | nil => rfl
  | cons e rest ih =>
    simp only [List.cons_append, runEvents]
    exact ih (applyEvent s e)

/-- A sequence of drain events either does nothing (empty) or amounts to one
drain. -/
theorem runEvents_all_drain (l : List AsyncEvent) (s : SrvState)
    (hl : ∀ e ∈ l, e = .drain) :
    runEvents s l = s ∨ runEvents s l = applyEvent s .drain := by
  induction l generalizing s with
  | nil => left; rfl
  | cons e rest ih =>
    have he := hl e (List.mem_cons_self _ _)
    subst he
    have hrest : ∀ e ∈ rest, e = AsyncEvent.drain :=
      fun e he => hl e (List.mem_cons_of_mem _ he)
    simp only [runEvents]
    rcases ih (applyEvent s .drain) hrest with h | h
    · right; exact h
    · right; rw [h, applyEvent_drain_idem]

/-- A nonempty sequence of drain events amounts to exactly one drain. -/
theorem runEvents_all_drain_ne (l : List AsyncEvent) (s : SrvState)
    (hl : ∀ e ∈ l, e = .drain) (hne : l ≠ []) :
    runEvents s l = applyEvent s .drain := by
  cases l with
  | nil => exact absurd rfl hne
  | cons e rest =>
    have he := hl e (List.mem_cons_self _ _)
    subst he
    have hrest : ∀ e ∈ rest, e = AsyncEvent.drain :=
      fun e he => hl e (List.mem_cons_of_mem _ he)
    simp only [runEvents]
    rcases runEvents_all_drain rest (applyEvent s .drain) hrest with h | h
    · exact h
    · rw [h, applyEvent_drain_idem]

/-- A sequence of drain events leaves a state with an empty queue unchanged. -/
theorem runEvents_all_drain_queue_nil (l : List AsyncEvent) (s : SrvState)
    (hl : ∀ e ∈ l, e = .drain) (hq : s.queue = []) :
    runEvents s l = s := by
  rcases runEvents_all_drain l s hl with h | h
  · exact h
  · rw [h]
    cases s
    simp_all [applyEvent]

/-- The event sequence of the staleness scenario: client `C`'s first request
is recorded on thread `t1`; before it completes the second request is
recorded on thread `t2`; then `t1`'s handler completes with `r1`, and later
`t2`'s completes with `r2`.  Arbitrary runs of the accept loop's
response-draining step are interleaved at every point. -/
def c1Events (C : String) (t1 t2 : Nat) (r1 r2 : Resp)
    (d1 d2 d3 d4 : List AsyncEvent) : List AsyncEvent :=
  [.record C t1] ++ d1 ++ [.record C t2] ++ d2 ++ [.finish C t1 r1] ++ d3 ++
    [.finish C t2 r2] ++ d4

/-- The prefix of the scenario up to the completion of the first request. -/
def c1FirstPhase (C : String) (t1 t2 : Nat) (r1 : Resp)
    (d1 d2 : List AsyncEvent) : List AsyncEvent :=
  [.record C t1] ++ d1 ++ [.record C t2] ++ d2 ++ [.finish C t1 r1]


/-- C1: staleness suppression.  If client identity `C` issues request `r1`
(recorded on thread `t1`) and, before `r1`'s handler completes, issues `r2`
(recorded on thread `t2`), then however the accept loop's drain step is
interleaved: the completion of `r1` enqueues its result under a null client
identity; no drain ever delivers `r1` to anyone; everything ever sent is
`r2`'s result addressed to `C`; a drain occurring after `r2`'s completion
delivers exactly `r2`'s result; and, in general, a drain sends only queue
entries whose client identity is not null. -/
theorem c1_staleness_suppression (C : String) (t1 t2 : Nat) (r1 r2 : Resp)
    (d1 d2 d3 d4 : List AsyncEvent)
    (ht : t1 ≠ t2) (hr : r1 ≠ r2)
    (h1 : ∀ e ∈ d1, e = .drain) (h2 : ∀ e ∈ d2, e = .drain)
    (h3 : ∀ e ∈ d3, e = .drain) (h4 : ∀ e ∈ d4, e = .drain) :
    (runEvents {} (c1FirstPhase C t1 t2 r1 d1 d2)).queue = [(none, r1)] ∧
    (∀ u, (u, r1) ∉ (runEvents {} (c1Events C t1 t2 r1 r2 d1 d2 d3 d4)).sent) ∧
    (∀ x ∈ (runEvents {} (c1Events C t1 t2 r1 r2 d1 d2 d3 d4)).sent,
      x = (C, r2)) ∧
    (d4 ≠ [] →
      (runEvents {} (c1Events C t1 t2 r1 r2 d1 d2 d3 d4)).sent = [(C, r2)]) ∧
    (∀ (s : SrvState) (u : String) (r : Resp),
      (u, r) ∈ (applyEvent s .drain).sent →
        (u, r) ∈ s.sent ∨ (some u, r) ∈ s.queue) := by
  have e1 : runEvents {} [AsyncEvent.record C t1] =
      (⟨[(C, t1)], [], []⟩ : SrvState) := rfl
  have e2 : runEvents (⟨[(C, t1)], [], []⟩ : SrvState) d1 =
      (⟨[(C, t1)], [], []⟩ : SrvState) :=
    runEvents_all_drain_queue_nil d1 _ h1 rfl
  have e3 : runEvents (⟨[(C, t1)], [], []⟩ : SrvState) [AsyncEvent.record C t2] =
      (⟨[(C, t2), (C, t1)], [], []⟩ : SrvState) := rfl
  have e4 : runEvents (⟨[(C, t2), (C, t1)], [], []⟩ : SrvState) d2 =
      (⟨[(C, t2), (C, t1)], [], []⟩ : SrvState) :=
    runEvents_all_drain_queue_nil d2 _ h2 rfl
  have e5 : runEvents (⟨[(C, t2), (C, t1)], [], []⟩ : SrvState)
      [AsyncEvent.finish C t1 r1] =
      (⟨[(C, t2), (C, t1)], [(none, r1)], []⟩ : SrvState) := by
    simp only [runEvents, applyEvent, List.lookup]
    simp [Ne.symm ht]
  have ephase : runEvents {} (c1FirstPhase C t1 t2 r1 d1 d2) =
      (⟨[(C, t2), (C, t1)], [(none, r1)], []⟩ : SrvState) := by
    unfold c1FirstPhase
    simp only [runEvents_append]
    rw [e1, e2, e3, e4, e5]
  have e7 : ∀ q : List (Option String × Resp),
      runEvents (⟨[(C, t2), (C, t1)], q, []⟩ : SrvState)
        [AsyncEvent.finish C t2 r2] =
      (⟨[(C, t2), (C, t1)], q ++ [(some C, r2)], []⟩ : SrvState) := by
    intro q
    simp only [runEvents, applyEvent, List.lookup]
    simp
  have hsplit : runEvents {} (c1Events C t1 t2 r1 r2 d1 d2 d3 d4) =
      runEvents (runEvents (runEvents (runEvents {}
        (c1FirstPhase C t1 t2 r1 d1 d2)) d3) [AsyncEvent.finish C t2 r2]) d4 := by
    have : c1Events C t1 t2 r1 r2 d1 d2 d3 d4 =
        ((c1FirstPhase C t1 t2 r1 d1 d2 ++ d3) ++ [AsyncEvent.finish C t2 r2]) ++ d4 := by
      unfold c1Events c1FirstPhase
      simp
    rw [this, runEvents_append, runEvents_append, runEvents_append]
  have hsent : (runEvents {} (c1Events C t1 t2 r1 r2 d1 d2 d3 d4)).sent = [] ∨
      (runEvents {} (c1Events C t1 t2 r1 r2 d1 d2 d3 d4)).sent = [(C, r2)] := by
    rw [hsplit, ephase]
    rcases runEvents_all_drain d3 _ h3 with hd3 | hd3 <;> rw [hd3] <;>
      [skip; rw [show applyEvent (⟨[(C, t2), (C, t1)], [(none, r1)], []⟩ :
        SrvState) .drain = (⟨[(C, t2), (C, t1)], [], []⟩ : SrvState) from rfl]] <;>
      rw [e7] <;>
      rcases List.eq_nil_or_concat d4 with hd4 | _ <;>
      [subst hd4; skip; subst hd4; skip]
    · left; rfl
    · rw [runEvents_all_drain_ne d4 _ h4 (by rintro rfl; simp_all)]
      right; rfl
    · left; rfl
    · rw [runEvents_all_drain_ne d4 _ h4 (by rintro rfl; simp_all)]
      right; rfl
  have hd4ne : d4 ≠ [] →
      (runEvents {} (c1Events C t1 t2 r1 r2 d1 d2 d3 d4)).sent = [(C, r2)] := by
    intro hne
    rw [hsplit, ephase]
    rcases runEvents_all_drain d3 _ h3 with hd3 | hd3 <;> rw [hd3] <;>
      [skip; rw [show applyEvent (⟨[(C, t2), (C, t1)], [(none, r1)], []⟩ :
        SrvState) .drain = (⟨[(C, t2), (C, t1)], [], []⟩ : SrvState) from rfl]] <;>
      rw [e7] <;> rw [runEvents_all_drain_ne d4 _ h4 hne] <;> rfl
  refine ⟨by rw [ephase], ?_, ?_, hd4ne, ?_⟩
  · intro u hmem
    rcases hsent with hs | hs <;> rw [hs] at hmem
    · simp at hmem
    · simp at hmem
      exact hr hmem.2
  · intro x hmem
    rcases hsent with hs | hs <;> rw [hs] at hmem
    · simp at hmem
    · simpa using hmem
  · intro s u r hmem
    simp only [applyEvent] at hmem
    rcases List.mem_append.mp hmem with hl | hrr
    · exact Or.inl hl
    · right
      rcases List.mem_filterMap.mp hrr with ⟨e, he, hmap⟩
      rcases Option.map_eq_some'.mp hmap with ⟨a, ha1, ha2⟩
      have ha2b : (a, e.2) = (u, r) := ha2
      have he2 : e = (some u, r) := by
        cases e
        simp only [Prod.mk.injEq] at ha2b ⊢
        simp_all
      rw [he2] at he
      exact he

/-- Concrete first response for the C1 witness (nonce 1). -/
def c1R1 : Resp := ⟨"response", some 11, none, 1⟩

/-- Concrete second response for the C1 witness (nonce 2). -/
def c1R2 : Resp := ⟨"response", some 22, none, 2⟩

/-- Witness for C1 at a concrete interleaving: client `"c"`, threads 1 and 2,
a drain between the two completions and one after. -/
theorem c1_witness :
    (runEvents {} (c1FirstPhase "c" 1 2 c1R1 [] [])).queue = [(none, c1R1)] ∧
    (∀ u, (u, c1R1) ∉
      (runEvents {} (c1Events "c" 1 2 c1R1 c1R2 [] [] [.drain] [.drain])).sent) ∧
    (∀ x ∈ (runEvents {}
        (c1Events "c" 1 2 c1R1 c1R2 [] [] [.drain] [.drain])).sent,
      x = ("c", c1R2)) ∧
    (([AsyncEvent.drain] : List AsyncEvent) ≠ [] →
      (runEvents {} (c1Events "c" 1 2 c1R1 c1R2 [] [] [.drain] [.drain])).sent =
        [("c", c1R2)]) ∧
    (∀ (s : SrvState) (u : String) (r : Resp),
      (u, r) ∈ (applyEvent s .drain).sent →
        (u, r) ∈ s.sent ∨ (some u, r) ∈ s.queue) :=
  c1_staleness_suppression "c" 1 2 c1R1 c1R2 [] [] [.drain] [.drain]
    (by decide) (by decide)
    (fun e he => absurd he (List.not_mem_nil e))
    (fun e he => absurd he (List.not_mem_nil e))
    (fun e he => List.mem_singleton.mp he)
    (fun e he => List.mem_singleton.mp he)

/-- C3: the accept loop's written control flow calls `_try_respond` only in
the timeout branch.  Evaluated at the failing input — an iteration in which
`recv` returns a frame — the iteration dispatches the handler but does not
drain the result queue; only a timed-out iteration drains. -/
theorem c3_drain_only_on_timeout :
    (loopIteration (.frame "c1" ⟨some "ping", [], [], [], some 1⟩)).drained =
      false ∧
    (loopIteration (.frame "c1" ⟨some "ping", [], [], [], some 1⟩)).dispatched =
      some ("c1", ⟨some "ping", [], [], [], some 1⟩) ∧
    (loopIteration .timeout).drained = true :=
  ⟨rfl, rfl, rfl⟩

/-- C9: round-trip codec law.  Each of the three streams serializes by
compressing the codec's output and deserializes by decoding the
decompressed bytes; whenever the compressor pair is lossless and the codec
round-trips on its supported values — the library contracts of zlib and of
pickle/json/msgpack on the supported types — the stream round-trips every
value. -/
theorem c9_roundtrip {α : Type} (dumps : α → List Nat) (loads : List Nat → α)
    (compress decompress : List Nat → List Nat)
    (hzlib : ∀ bs, decompress (compress bs) = bs)
    (hcodec : ∀ v, loads (dumps v) = v) (v : α) :
    streamDeserialize loads decompress (streamSerialize dumps compress v) = v := by
  simp [streamSerialize, streamDeserialize, hzlib, hcodec]

/-- The concrete `PyPrim` codec round-trips. -/
theorem pyLoads_pyDumps (v : PyPrim) : pyLoads (pyDumps v) = v := by
  cases v with
  | pyNone => rfl
  | pyBool b => cases b <;> rfl
  | pyInt n => cases n <;> rfl

/-- The length-prefix compressor pair is lossless. -/
theorem lenDecompress_lenCompress (bs : List Nat) :
    lenDecompress (lenCompress bs) = bs := rfl

/-- Witness for C9: the stream composition round-trips a concrete negative
integer through the executable `PyPrim` codec and the length-prefix
compressor. -/
theorem c9_witness :
    streamDeserialize pyLoads lenDecompress
      (streamSerialize pyDumps lenCompress (.pyInt (-7))) = .pyInt (-7) :=
  c9_roundtrip pyDumps pyLoads lenCompress lenDecompress
    lenDecompress_lenCompress pyLoads_pyDumps (.pyInt (-7))
